import Mathlib

/-!
Verification of the serdo undo/redo engine (`src/undo_store.rs`, `src/cmd.rs`).

The engine is generic over a user model `M` and a command type `C`; a command
supplies `redo : C → M → M` and `undo : C → M → M` (in Rust these mutate the
model in place).  We shallow-embed both store variants:

* `InMemoryUndoStore` — the bounded in-memory history (`Vec` buffer +
  `location` cursor).  `Vec::with_capacity(n)` is modelled as a buffer whose
  capacity is exactly `n` (the store never pushes beyond `n`, so the Rust
  vector never reallocates and its capacity stays at the requested value).
  `Vec::remove(0)` on an empty vector panics; panicking operations return
  `Option` (`none` = panic).

* the durable store — the sqlite tables are modelled as association lists
  sorted strictly ascending by integer key (the primary-key order in which
  every SQL query of the source reads them), the persister server as a
  function from requests to state transitions plus emitted responses, and the
  persister client as its bookkeeping record.  `bincode` serialization is
  deterministic and symmetric, so serialized payloads are modelled by the
  commands/models themselves and deserialization always succeeds.
-/

namespace Serdo

/-- Apply a list of commands in order, via `redo`, starting from `m`. -/
def applyList {C M : Type} (redoF : C → M → M) (s : List C) (m : M) : M :=
  s.foldl (fun acc c => redoF c acc) m

/-! ## In-memory store (`InMemoryUndoStore`) -/

/-- State of `InMemoryUndoStore`: the model, the command buffer (`store`),
the buffer's fixed capacity, and the cursor `location ∈ [0, |store|]`. -/
structure InMemoryUndoStore (C M : Type) where
  capacity : Nat
  model : M
  store : List C
  location : Nat
  deriving Repr, DecidableEq

/-- Rust `InMemoryUndoStore::new(capacity)`: default model, empty buffer. -/
def InMemoryUndoStore.new (C : Type) {M : Type} (dflt : M) (capacity : Nat) :
    InMemoryUndoStore C M :=
  { capacity := capacity, model := dflt, store := [], location := 0 }

/-- The eviction loop of `post_cmd`:
`while self.store.capacity() <= self.store.len() { self.store.remove(0); }`.
`remove(0)` on an empty buffer panics (`none`). -/
def evictLoop {C : Type} (cap : Nat) : List C → Option (List C)
  | [] => if cap ≤ ([] : List C).length then none else some []
  | a :: t =>
    if cap ≤ (a :: t).length then evictLoop cap t else some (a :: t)

/-- Rust `InMemoryUndoStore::post_cmd`: truncate the redo tail when
`location < store.len()`, evict from the front while the buffer is full,
push the command, and move `location` to the end. -/
def InMemoryUndoStore.postCmd {C M : Type} (s : InMemoryUndoStore C M) (cmd : C) :
    Option (InMemoryUndoStore C M) :=
  let st := if s.location < s.store.length then s.store.take s.location else s.store
  match evictLoop s.capacity st with
  | none => none
  | some st2 =>
      some { s with store := st2 ++ [cmd], location := (st2 ++ [cmd]).length }

/-- Rust `InMemoryUndoStore::add_cmd`: run `cmd.redo` on the model, then `post_cmd`. -/
def InMemoryUndoStore.addCmd {C M : Type} (redoF : C → M → M)
    (s : InMemoryUndoStore C M) (cmd : C) : Option (InMemoryUndoStore C M) :=
  InMemoryUndoStore.postCmd { s with model := redoF cmd s.model } cmd

/-- Rust `InMemoryUndoStore::mutate` in the success case: the closure has already
mutated the model and produced a command; the command is committed via
`post_cmd` without re-running `redo`. -/
def InMemoryUndoStore.mutateOk {C M : Type} (s : InMemoryUndoStore C M)
    (m' : M) (cmd : C) : Option (InMemoryUndoStore C M) :=
  InMemoryUndoStore.postCmd { s with model := m' } cmd

/-- Rust `can_undo() ⇔ 0 < location`. -/
def InMemoryUndoStore.canUndo {C M : Type} (s : InMemoryUndoStore C M) : Bool :=
  0 < s.location

/-- Rust `can_redo() ⇔ location < store.len()`. -/
def InMemoryUndoStore.canRedo {C M : Type} (s : InMemoryUndoStore C M) : Bool :=
  s.location < s.store.length

/-- Rust `InMemoryUndoStore::undo`: when `can_undo`, decrement `location` and run
`store[location].undo` on the model; otherwise do nothing.  The index
`location - 1` is in bounds whenever `location ≤ store.len()`, which holds in
every state the store constructs; the `none` fallback is unreachable there. -/
def InMemoryUndoStore.undoOp {C M : Type} (undoF : C → M → M)
    (s : InMemoryUndoStore C M) : InMemoryUndoStore C M :=
  if 0 < s.location then
    match s.store.get? (s.location - 1) with
    | some cmd => { s with location := s.location - 1, model := undoF cmd s.model }
    | none => s
  else s

/-- Rust `InMemoryUndoStore::redo`: when `can_redo`, run `store[location].redo` on
the model and increment `location`; otherwise do nothing. -/
def InMemoryUndoStore.redoOp {C M : Type} (redoF : C → M → M)
    (s : InMemoryUndoStore C M) : InMemoryUndoStore C M :=
  match s.store.get? s.location with
  | some cmd => { s with model := redoF cmd s.model, location := s.location + 1 }
  | none => s

/-- Add a whole list of commands in order (propagating a panic). -/
def InMemoryUndoStore.addAll {C M : Type} (redoF : C → M → M)
    (s : InMemoryUndoStore C M) : List C → Option (InMemoryUndoStore C M)
  | [] => some s
  | c :: t =>
    match InMemoryUndoStore.addCmd redoF s c with
    | none => none
    | some s' => InMemoryUndoStore.addAll redoF s' t

/-- Iterate `undo` `n` times. -/
def InMemoryUndoStore.undoN {C M : Type} (undoF : C → M → M)
    (s : InMemoryUndoStore C M) : Nat → InMemoryUndoStore C M
  | 0 => s
  | n + 1 => InMemoryUndoStore.undoN undoF (InMemoryUndoStore.undoOp undoF s) n

/-- Iterate `redo` `n` times. -/
def InMemoryUndoStore.redoN {C M : Type} (redoF : C → M → M)
    (s : InMemoryUndoStore C M) : Nat → InMemoryUndoStore C M
  | 0 => s
  | n + 1 => InMemoryUndoStore.redoN redoF (InMemoryUndoStore.redoOp redoF s) n

/-! ## The integer-sum command of the source's tests (`SumCmd` over `Sum`) -/

/-- Rust `SumCmd` from the source's test suite: `Add(i)` adds `i`, `Sub(i)`
subtracts `i`; the model is an integer sum with default `0`. -/
inductive SumCmd : Type
  | add (i : Int)
  | sub (i : Int)
  deriving Repr, DecidableEq

/-- Rust `SumCmd::redo`. -/
def sumRedo : SumCmd → Int → Int
  | SumCmd.add i, m => m + i
  | SumCmd.sub i, m => m - i

/-- Rust `SumCmd::undo`. -/
def sumUndo : SumCmd → Int → Int
  | SumCmd.add i, m => m - i
  | SumCmd.sub i, m => m + i

/-! ## Durable store: on-disk state and the persister server

The sqlite tables `command(command_id, serialized)` and
`snapshot(snapshot_id, serialized)` are association lists sorted strictly
ascending by key (every query of the source reads them in primary-key order);
`cmd_seq_no` holds the persisted current sequence number. -/

/-- Rust `i64::MAX`, the value of `MAX_COMMAND_ID` in the source. -/
def MAX_COMMAND_ID : Int := 9223372036854775807

/-- The error kinds of `SqliteUndoStoreError` that the modelled paths can
produce (payloads dropped). -/
inductive StoreErr : Type
  | cannotUndoRedo
  | cmdSequenceError
  | needCompaction
  | cannotRestoreModel (snapshotId : Option Int) (notFoundCmdId : Int)
  | dbError
  deriving Repr, DecidableEq

/-- The typed responses of the persister protocol (`PersistResp`), with
serialized payloads replaced by the decoded values. -/
inductive PersistResp (C : Type) : Type
  | addCmdOk (seqNo : Int)
  | addCmdErr (e : StoreErr)
  | undoOk (seqNo : Int) (cmd : C)
  | undoErr (e : StoreErr)
  | redoOk (seqNo : Int) (cmd : C)
  | redoErr (e : StoreErr)
  | closeOk
  deriving Repr, DecidableEq

/-- The `Loaded` state of `PersisterServer`: the two tables, the persisted
sequence number (`cmd_seq_no` table), the server's in-memory
`cur_cmd_seq_no`, and the server-side model replica. -/
structure SrvState (C M : Type) where
  commands : List (Int × C)
  snapshots : List (Int × M)
  savedSeqNo : Int
  curSeqNo : Int
  model : M
  deriving Repr, DecidableEq

/-- Greatest key of a table (`select max(...)`); `none` when empty. -/
def maxKey {A : Type} (l : List (Int × A)) : Option Int :=
  match l.map Prod.fst with
  | [] => none
  | k :: ks => some (ks.foldl max k)

/-- Least key of a table (`select min(...)`); `none` when empty. -/
def minKey {A : Type} (l : List (Int × A)) : Option Int :=
  match l.map Prod.fst with
  | [] => none
  | k :: ks => some (ks.foldl min k)

/-- Rust `select serialized from command where command_id = ?1`. -/
def tableLookup {A : Type} (l : List (Int × A)) (id : Int) : Option A :=
  (l.find? (fun p => p.1 == id)).map Prod.snd

/-- Ordered insert into a table (`insert into ... values (id, v)`), assuming
the key is not yet present. -/
def tableInsert {A : Type} : List (Int × A) → Int → A → List (Int × A)
  | [], id, v => [(id, v)]
  | p :: t, id, v => if id < p.1 then (id, v) :: p :: t else p :: tableInsert t id v

/-- Rust `save_snapshot`: insert the serialized model at `seq_no`.  Inserting a
key that is already present violates the primary key and fails. -/
def saveSnapshot {M : Type} (snaps : List (Int × M)) (id : Int) (m : M) :
    Except StoreErr (List (Int × M)) :=
  if snaps.any (fun p => p.1 == id) then .error .dbError
  else .ok (tableInsert snaps id m)

/-- Rust `trim_undo_records`: delete every command whose id is not among the
`undo_limit` largest; returns `(removed count, remaining table)`.  On the
ascending table this keeps the last `undo_limit` entries. -/
def trimUndoRecords {C : Type} (cmds : List (Int × C)) (undoLimit : Nat) :
    Nat × List (Int × C) :=
  let kept := cmds.drop (cmds.length - undoLimit)
  (cmds.length - kept.length, kept)

/-- Rust `get_last_snapshot_id`: `select max(snapshot_id) from snapshot`. -/
def getLastSnapshotId {M : Type} (snaps : List (Int × M)) : Option Int :=
  maxKey snaps

/-- Rust `trim_snapshots`: `delete from snapshot where snapshot_id <
(select max(snapshot_id) from snapshot)`. -/
def trimSnapshots {M : Type} (snaps : List (Int × M)) : List (Int × M) :=
  match maxKey snaps with
  | none => snaps
  | some mx => snaps.filter (fun p => !(p.1 < mx))

/-- Result of `PersisterServer::add_cmd`: the state after the body ran (the
individual statements are not wrapped in one transaction, so on an error the
statements already executed keep their effect), the responses the body itself
emitted (the `NeedCompaction` report), and the body's return value. -/
structure AddCmdResult (C M : Type) where
  state : SrvState C M
  emitted : List (PersistResp C)
  result : Except StoreErr Unit
  deriving Repr

/-- Rust `PersisterServer::add_cmd(seq_no, ser_cmd)`, for a `Loaded` server.
Decodes the command, runs `redo` on the server model, deletes the branch
(`delete from command where seq_no+1 <= command_id`), inserts the command at
`seq_no + 1`, emits `AddCmdErr(NeedCompaction)` when that id equals
`MAX_COMMAND_ID` (without returning), persists the sequence number, trims the
command table to the `undo_limit` newest rows, and applies the snapshot
policy. -/
def srvAddCmd {C M : Type} (redoF : C → M → M) (undoLimit : Nat)
    (seqNo : Int) (cmd : C) (st : SrvState C M) : AddCmdResult C M :=
  let model' := redoF cmd st.model
  let seq := seqNo + 1
  let keptBranch := st.commands.filter (fun p => decide (p.1 < seq))
  let deleteCount := st.commands.length - keptBranch.length
  let cmds1 := keptBranch ++ [(seq, cmd)]
  let emitted : List (PersistResp C) :=
    if seq == MAX_COMMAND_ID then [PersistResp.addCmdErr .needCompaction] else []
  let trimmed := trimUndoRecords cmds1 undoLimit
  let removedCount := trimmed.1
  let cmds2 := trimmed.2
  let snapAfterTrim : Except StoreErr (List (Int × M)) :=
    if removedCount ≠ 0 then
      match getLastSnapshotId st.snapshots with
      | none => saveSnapshot st.snapshots seq model'
      | some lastSnapshotId =>
          if lastSnapshotId < seq - (undoLimit : Int) then
            saveSnapshot st.snapshots seq model'
          else .ok st.snapshots
    else .ok st.snapshots
  match snapAfterTrim with
  | .error e =>
      { state := { st with model := model', commands := cmds2, savedSeqNo := seq },
        emitted := emitted, result := .error e }
  | .ok snaps1 =>
      let snaps2 :=
        if deleteCount ≠ 0 then
          match saveSnapshot ([] : List (Int × M)) seq model' with
          | .ok s => s
          | .error _ => []
        else trimSnapshots snaps1
      let st' := { st with model := model', commands := cmds2,
                           savedSeqNo := seq, snapshots := snaps2 }
      { state := st', emitted := emitted, result := .ok () }

/-- The `PersistCmd::AddCmd` arm of `PersisterServer::start`: run `add_cmd`;
on success set the in-memory `cur_cmd_seq_no` to `seq_no + 1` and reply
`AddCmdOk{seq_no + 1}`; on failure reply `AddCmdErr`. -/
def srvHandleAddCmd {C M : Type} (redoF : C → M → M) (undoLimit : Nat)
    (seqNo : Int) (cmd : C) (st : SrvState C M) :
    SrvState C M × List (PersistResp C) :=
  let r := srvAddCmd redoF undoLimit seqNo cmd st
  match r.result with
  | .ok _ =>
      ({ r.state with curSeqNo := seqNo + 1 },
        r.emitted ++ [PersistResp.addCmdOk (seqNo + 1)])
  | .error e => (r.state, r.emitted ++ [PersistResp.addCmdErr e])

/-- Rust `PersisterServer::undo`, for a `Loaded` server: read the command at
`cur_cmd_seq_no`; if present, run its `undo` on the server model, decrement
and persist the sequence number, and return the old sequence number with the
serialized command; otherwise fail with `CannotUndoRedo`. -/
def srvUndo {C M : Type} (undoF : C → M → M) (st : SrvState C M) :
    SrvState C M × Except StoreErr (Int × C) :=
  match tableLookup st.commands st.curSeqNo with
  | some cmd =>
      ({ st with model := undoF cmd st.model,
                 curSeqNo := st.curSeqNo - 1,
                 savedSeqNo := st.curSeqNo - 1 },
        .ok (st.curSeqNo, cmd))
  | none => (st, .error .cannotUndoRedo)

/-- Rust `PersisterServer::redo`, for a `Loaded` server: read the command at
`cur_cmd_seq_no + 1`; if present, run its `redo` on the server model,
increment and persist the sequence number, and return the pre-increment
sequence number with the serialized command. -/
def srvRedo {C M : Type} (redoF : C → M → M) (st : SrvState C M) :
    SrvState C M × Except StoreErr (Int × C) :=
  match tableLookup st.commands (st.curSeqNo + 1) with
  | some cmd =>
      ({ st with model := redoF cmd st.model,
                 curSeqNo := st.curSeqNo + 1,
                 savedSeqNo := st.curSeqNo + 1 },
        .ok (st.curSeqNo, cmd))
  | none => (st, .error .cannotUndoRedo)

/-- The `PersistCmd::Undo` arm of `PersisterServer::start`. -/
def srvHandleUndo {C M : Type} (undoF : C → M → M) (st : SrvState C M) :
    SrvState C M × PersistResp C :=
  match srvUndo undoF st with
  | (st', .ok (seqNo, cmd)) => (st', PersistResp.undoOk seqNo cmd)
  | (st', .error e) => (st', PersistResp.undoErr e)

/-- The `PersistCmd::Redo` arm of `PersisterServer::start`. -/
def srvHandleRedo {C M : Type} (redoF : C → M → M) (st : SrvState C M) :
    SrvState C M × PersistResp C :=
  match srvRedo redoF st with
  | (st', .ok (seqNo, cmd)) => (st', PersistResp.redoOk seqNo cmd)
  | (st', .error e) => (st', PersistResp.redoErr e)

/-! ## Restore engine (`restore_model` and its helpers) -/

/-- Rust `get_cur_seq_no`: read the single `cmd_seq_no` row; when absent a `0` row
is inserted and `0` returned. -/
def getCurSeqNo (row : Option Int) : Int := row.getD 0

/-- Rust `load_last_snapshot`:
`select snapshot_id, serialized from snapshot where snapshot_id >=
(select min(command_id) from command) - 1 and snapshot_id <=
(select max(command_id) from command) order by snapshot_id desc limit 1`.
When the command table is empty both subqueries are NULL and no row
qualifies. -/
def loadLastSnapshot {C M : Type} (cmds : List (Int × C))
    (snaps : List (Int × M)) : Option (Int × M) :=
  match minKey cmds, maxKey cmds with
  | some mn, some mx =>
      (snaps.filter (fun p => decide (mn - 1 ≤ p.1) && decide (p.1 ≤ mx))).getLast?
  | _, _ => none

/-- The row loop of `load_without_snapshot`: commands arrive in ascending id
order; `cmd_id` starts at `1` and each row's id must equal it, else the open
fails with `CannotRestoreModel`; each command is replayed via `redo`. -/
def replayAsc {C M : Type} (redoF : C → M → M) (snapshotId : Option Int) :
    List (Int × C) → Int → M → Except StoreErr M
  | [], _, m => .ok m
  | (id, c) :: t, expect, m =>
      if id ≠ expect then .error (.cannotRestoreModel snapshotId expect)
      else replayAsc redoF snapshotId t (expect + 1) (redoF c m)

/-- The descending row loop of `restore_model`'s `cur < snapshot` branch:
commands arrive in descending id order, `cmd_id` starts at the snapshot id
and each row's id must equal it; each command is unwound via `undo`. -/
def replayDesc {C M : Type} (undoF : C → M → M) (snapshotId : Int) :
    List (Int × C) → Int → M → Except StoreErr M
  | [], _, m => .ok m
  | (id, c) :: t, expect, m =>
      if id ≠ expect then .error (.cannotRestoreModel (some snapshotId) expect)
      else replayDesc undoF snapshotId t (expect - 1) (undoF c m)

/-- Rust `load_without_snapshot`: replay `command_id <= cur` in ascending order
from the default model, requiring ids `1, 2, …`. -/
def loadWithoutSnapshot {C M : Type} (redoF : C → M → M) (dflt : M)
    (cmds : List (Int × C)) (cur : Int) : Except StoreErr M :=
  replayAsc redoF none (cmds.filter (fun p => decide (p.1 ≤ cur))) 1 dflt

/-- Rust `PersisterServer::restore_model`: with `cur = 0` the model is the
default; otherwise, with an eligible snapshot `(S, model_S)`, commands in
`(cur, S]` are undone in descending order when `cur < S`, commands in
`(S, cur]` are redone in ascending order when `S < cur`, and `model_S` is
used as-is when `cur = S`; without an eligible snapshot the model is rebuilt
by `load_without_snapshot`. -/
def restoreModel {C M : Type} (redoF undoF : C → M → M) (dflt : M)
    (cmds : List (Int × C)) (snaps : List (Int × M)) (cur : Int) :
    Except StoreErr (Int × M) :=
  if cur == 0 then .ok (0, dflt)
  else
    match loadLastSnapshot cmds snaps with
    | some (s, modelS) =>
        if cur < s then
          (replayDesc undoF s
            ((cmds.filter (fun p => decide (cur < p.1) && decide (p.1 ≤ s))).reverse)
            s modelS).map (fun m => (cur, m))
        else if s < cur then
          (replayAsc redoF (some s)
            (cmds.filter (fun p => decide (s < p.1) && decide (p.1 ≤ cur)))
            (s + 1) modelS).map (fun m => (cur, m))
        else .ok (cur, modelS)
    | none =>
        (loadWithoutSnapshot redoF dflt cmds cur).map (fun m => (cur, m))

/-! ## Persister client (`PersisterClient`) -/

/-- The caller-side bookkeeping of `PersisterClient`. -/
structure ClientState where
  lastSeqNo : Int
  lastProcessedSeqNo : Option Int
  minSeqNo : Option Int
  maxSeqNo : Option Int
  undoLimit : Nat
  deriving Repr, DecidableEq

/-- Rust `PersisterClient::can_undo`: `min_seq_no <= last_seq_no` when the bound
is known, `false` otherwise. -/
def ClientState.canUndo (c : ClientState) : Bool :=
  match c.minSeqNo with
  | some mn => mn ≤ c.lastSeqNo
  | none => false

/-- Rust `PersisterClient::can_redo`: `last_seq_no < max_seq_no` when the bound is
known, `false` otherwise. -/
def ClientState.canRedo (c : ClientState) : Bool :=
  match c.maxSeqNo with
  | some mx => c.lastSeqNo < mx
  | none => false

/-- Rust `PersisterClient::saved`: `last_processed_seq_no == last_seq_no` when an
acknowledgement has been received, `false` otherwise. -/
def ClientState.saved (c : ClientState) : Bool :=
  match c.lastProcessedSeqNo with
  | some p => p == c.lastSeqNo
  | none => false

/-- The client produced by `PersisterClient::open` from the server's
`OpenOk { seq_no, min_max_seq_no }` reply: `last_seq_no` is the restored
sequence number and `last_processed_seq_no` starts as `None`. -/
def clientAfterOpen (seqNo : Int) (minMax : Option (Int × Int))
    (undoLimit : Nat) : ClientState :=
  { lastSeqNo := seqNo, lastProcessedSeqNo := none,
    minSeqNo := minMax.map Prod.fst, maxSeqNo := minMax.map Prod.snd,
    undoLimit := undoLimit }

/-- The bookkeeping part of `PersisterClient::add_command`: bump
`last_seq_no` and slide the cached `min_seq_no` window. -/
def ClientState.addCommand (c : ClientState) : ClientState :=
  let last := c.lastSeqNo + 1
  let mn :=
    match c.minSeqNo with
    | some mn =>
        if mn + (c.undoLimit : Int) ≤ last then some (last - (c.undoLimit : Int) + 1)
        else some mn
    | none => some last
  { c with lastSeqNo := last, minSeqNo := mn }

/-- Rust `PersisterClient::wait_undo_resp` applied to the queue of responses the
worker has sent: pending `AddCmdOk` acknowledgements are folded into
`last_processed_seq_no`, `AddCmdErr`/`UndoErr` surface their error, `UndoOk`
is the result, and any other response is a protocol violation
(`CmdSequenceError`).  The empty queue cannot arise in the modelled
synchronous exchange (the worker has replied before the client waits). -/
def waitUndoResp {C : Type} (c : ClientState) :
    List (PersistResp C) → ClientState × Except StoreErr (Int × C)
  | [] => (c, .error .cmdSequenceError)
  | PersistResp.addCmdOk seqNo :: t =>
      waitUndoResp { c with lastProcessedSeqNo := some seqNo } t
  | PersistResp.addCmdErr e :: _ => (c, .error e)
  | PersistResp.undoOk seqNo cmd :: _ => (c, .ok (seqNo, cmd))
  | PersistResp.undoErr e :: _ => (c, .error e)
  | PersistResp.redoOk _ _ :: _ => (c, .error .cmdSequenceError)
  | PersistResp.redoErr _ :: _ => (c, .error .cmdSequenceError)
  | PersistResp.closeOk :: _ => (c, .error .cmdSequenceError)

/-- Rust `PersisterClient::wait_redo_resp`, symmetric to `waitUndoResp`. -/
def waitRedoResp {C : Type} (c : ClientState) :
    List (PersistResp C) → ClientState × Except StoreErr (Int × C)
  | [] => (c, .error .cmdSequenceError)
  | PersistResp.addCmdOk seqNo :: t =>
      waitRedoResp { c with lastProcessedSeqNo := some seqNo } t
  | PersistResp.addCmdErr e :: _ => (c, .error e)
  | PersistResp.redoOk seqNo cmd :: _ => (c, .ok (seqNo, cmd))
  | PersistResp.redoErr e :: _ => (c, .error e)
  | PersistResp.undoOk _ _ :: _ => (c, .error .cmdSequenceError)
  | PersistResp.undoErr _ :: _ => (c, .error .cmdSequenceError)
  | PersistResp.closeOk :: _ => (c, .error .cmdSequenceError)

/-- Rust `PersisterClient::undo`, given the responses it will receive: wait for
the undo response; on `Ok` with an unexpected sequence number bail with
`CmdSequenceError` (without touching `last_seq_no`); in every other case —
including an error response — decrement `last_seq_no` before returning. -/
def clientUndo {C : Type} (c : ClientState) (resps : List (PersistResp C)) :
    ClientState × Except StoreErr (Int × C) :=
  let (c1, resp) := waitUndoResp c resps
  match resp with
  | .ok (seqNo, cmd) =>
      if seqNo ≠ c1.lastSeqNo then (c1, .error .cmdSequenceError)
      else ({ c1 with lastSeqNo := c1.lastSeqNo - 1 }, .ok (seqNo, cmd))
  | .error e => ({ c1 with lastSeqNo := c1.lastSeqNo - 1 }, .error e)

/-- Rust `PersisterClient::redo`, symmetric to `clientUndo`: on an error response
`last_seq_no` is still incremented before the error is returned. -/
def clientRedo {C : Type} (c : ClientState) (resps : List (PersistResp C)) :
    ClientState × Except StoreErr (Int × C) :=
  let (c1, resp) := waitRedoResp c resps
  match resp with
  | .ok (seqNo, cmd) =>
      if seqNo ≠ c1.lastSeqNo then (c1, .error .cmdSequenceError)
      else ({ c1 with lastSeqNo := c1.lastSeqNo + 1 }, .ok (seqNo, cmd))
  | .error e => ({ c1 with lastSeqNo := c1.lastSeqNo + 1 }, .error e)

/-- Rust `PersisterClient::process_resp`: drain pending responses without
blocking; `AddCmdOk{seq}` sets both `last_processed_seq_no` and
`max_seq_no`; `AddCmdErr` surfaces its error; anything else is a protocol
violation. -/
def processResp {C : Type} (c : ClientState) :
    List (PersistResp C) → Except StoreErr ClientState
  | [] => .ok c
  | PersistResp.addCmdOk seqNo :: t =>
      processResp { c with lastProcessedSeqNo := some seqNo,
                           maxSeqNo := some seqNo } t
  | PersistResp.addCmdErr e :: _ => .error e
  | _ :: _ => .error .cmdSequenceError

/-- Rust `SqliteUndoStore::saved`: drain pending responses, then ask the client. -/
def sqliteStoreSaved {C : Type} (c : ClientState)
    (resps : List (PersistResp C)) : Except StoreErr Bool :=
  (processResp c resps).map ClientState.saved

/-! ## The durable facade (`SqliteUndoStore`) with its worker

The caller's thread (facade + client) and the worker (server) communicate
over FIFO channels; `AddCmd` requests the facade has sent but the worker has
not yet processed sit in `pending`.  `undo`/`redo` are synchronous: the
worker processes every pending request and then the `Undo`/`Redo` request,
and the client drains the resulting responses in order. -/

structure SqliteStore (C M : Type) where
  model : M
  client : ClientState
  pending : List (Int × C)
  server : SrvState C M

/-- The worker processing the queued `AddCmd{seq_no, cmd}` requests in FIFO
order, collecting its responses. -/
def srvProcessPending {C M : Type} (redoF : C → M → M) (undoLimit : Nat) :
    SrvState C M → List (Int × C) → SrvState C M × List (PersistResp C)
  | st, [] => (st, [])
  | st, (seqNo, cmd) :: t =>
      let (st1, rs1) := srvHandleAddCmd redoF undoLimit seqNo cmd st
      let (st2, rs2) := srvProcessPending redoF undoLimit st1 t
      (st2, rs1 ++ rs2)

/-- Rust `SqliteUndoStore::add_cmd`: run `redo` on the facade's model replica,
serialize the command, and enqueue `AddCmd{last_seq_no}`; the client slides
its cached bounds optimistically. -/
def sqliteStoreAddCmd {C M : Type} (redoF : C → M → M)
    (s : SqliteStore C M) (cmd : C) : SqliteStore C M :=
  { s with model := redoF cmd s.model,
           pending := s.pending ++ [(s.client.lastSeqNo, cmd)],
           client := s.client.addCommand }

/-- Rust `SqliteUndoStore::can_undo` — answered from the client's cached bounds. -/
def sqliteStoreCanUndo {C M : Type} (s : SqliteStore C M) : Bool :=
  s.client.canUndo

/-- Rust `SqliteUndoStore::can_redo` — answered from the client's cached bounds. -/
def sqliteStoreCanRedo {C M : Type} (s : SqliteStore C M) : Bool :=
  s.client.canRedo

/-- Rust `SqliteUndoStore::undo`: when `can_undo` is false, do nothing at all (no
request is sent, nothing changes, no error); otherwise run the synchronous
undo exchange, decode the returned command, and apply its `undo` to the
facade's model replica.  A failed exchange makes the facade panic (`none`). -/
def sqliteStoreUndo {C M : Type} (redoF undoF : C → M → M) (undoLimit : Nat)
    (s : SqliteStore C M) : Option (SqliteStore C M) :=
  if s.client.canUndo then
    let (srv1, rs1) := srvProcessPending redoF undoLimit s.server s.pending
    let (srv2, r2) := srvHandleUndo undoF srv1
    let (c2, res) := clientUndo s.client (rs1 ++ [r2])
    match res with
    | .error _ => none
    | .ok (_, cmd) =>
        some { model := undoF cmd s.model, client := c2,
               pending := [], server := srv2 }
  else some s

/-- Rust `SqliteUndoStore::redo`, symmetric to `sqliteStoreUndo`. -/
def sqliteStoreRedo {C M : Type} (redoF : C → M → M) (undoLimit : Nat)
    (s : SqliteStore C M) : Option (SqliteStore C M) :=
  if s.client.canRedo then
    let (srv1, rs1) := srvProcessPending redoF undoLimit s.server s.pending
    let (srv2, r2) := srvHandleRedo redoF srv1
    let (c2, res) := clientRedo s.client (rs1 ++ [r2])
    match res with
    | .error _ => none
    | .ok (_, cmd) =>
        some { model := redoF cmd s.model, client := c2,
               pending := [], server := srv2 }
  else some s

/-! ## Auxiliary vocabulary for the specification statements -/

/-- Contiguous ascending integer ids `a, a+1, …, a+n-1`. -/
def intRange (a : Int) (n : Nat) : List Int :=
  (List.range n).map (fun i : Nat => a + (i : Int))

/-- Contiguous descending integer ids `a, a-1, …, a-n+1`. -/
def intRangeDown (a : Int) (n : Nat) : List Int :=
  (List.range n).map (fun i : Nat => a - (i : Int))

/-! ## Concrete scenario states (integer-sum model) -/

/-- A freshly created durable store's server state: empty tables, `cur = 0`,
default model. -/
def srvFresh : SrvState SumCmd Int :=
  { commands := [], snapshots := [], savedSeqNo := 0, curSeqNo := 0, model := 0 }

/-- Server state after `add_cmd(Add(1))` on a fresh store. -/
def c6St1 : SrvState SumCmd Int :=
  (srvHandleAddCmd sumRedo 100 0 (SumCmd.add 1) srvFresh).1

/-- Server state after subsequently undoing `Add(1)`. -/
def c6St2 : SrvState SumCmd Int :=
  (srvHandleUndo sumUndo c6St1).1

/-- Server state after subsequently running `add_cmd(Add(2))`: the redo tail
(command id `1`) is deleted and id `1` is assigned anew. -/
def c6St3 : SrvState SumCmd Int :=
  (srvHandleAddCmd sumRedo 100 0 (SumCmd.add 2) c6St2).1

/-- A server state holding commands `Add(1), Add(2), Add(3)` at ids 1–3 with
no snapshot, `cur = 3`, model `6`: the next `add_cmd` with `undo_limit = 3`
trims one command and must write the first snapshot. -/
def c3St : SrvState SumCmd Int :=
  { commands := [(1, SumCmd.add 1), (2, SumCmd.add 2), (3, SumCmd.add 3)],
    snapshots := [], savedSeqNo := 3, curSeqNo := 3, model := 6 }

/-- A server state whose current sequence number is `MAX_COMMAND_ID - 1`, so
the next `add_cmd` assigns `MAX_COMMAND_ID`. -/
def c7St0 : SrvState SumCmd Int :=
  { commands := [(MAX_COMMAND_ID - 1, SumCmd.add 1)], snapshots := [],
    savedSeqNo := MAX_COMMAND_ID - 1, curSeqNo := MAX_COMMAND_ID - 1, model := 1 }

/-- A freshly opened durable store facade (empty directory): default model,
client initialized from `OpenOk { seq_no = 0, min_max_seq_no = None }`. -/
def sqliteFresh : SqliteStore SumCmd Int :=
  { model := 0, client := clientAfterOpen 0 none 100,
    pending := [], server := srvFresh }

/-! ## Helper lemmas: the in-memory store -/

theorem evictLoop_of_lt {C : Type} {cap : Nat} {l : List C}
    (h : l.length < cap) : evictLoop cap l = some l := by
  cases l with
  | nil =>
      simp only [evictLoop, List.length_nil]
      rw [if_neg]
      omega
  | cons a t =>
      simp only [evictLoop]
      rw [if_neg]
      omega

theorem evictLoop_total {C : Type} {cap : Nat} (hcap : 1 ≤ cap) :
    ∀ l : List C, ∃ l2, evictLoop cap l = some l2 ∧ l2.length + 1 ≤ cap := by
  intro l
  induction l with
  | nil =>
      refine ⟨[], ?_, by simpa using hcap⟩
      simp only [evictLoop, List.length_nil]
      rw [if_neg]
      omega
  | cons a t ih =>
      by_cases h : cap ≤ t.length + 1
      · have hstep : evictLoop cap (a :: t) = evictLoop cap t := by
          simp only [evictLoop, List.length_cons]
          rw [if_pos h]
        rw [hstep]; exact ih
      · refine ⟨a :: t, ?_, by simp only [List.length_cons]; omega⟩
        simp only [evictLoop, List.length_cons]
        rw [if_neg h]

theorem addAll_of_le {C M : Type} (redoF : C → M → M) :
    ∀ (s : List C) (st : InMemoryUndoStore C M),
      st.location = st.store.length → st.store.length + s.length ≤ st.capacity →
      InMemoryUndoStore.addAll redoF st s =
        some { capacity := st.capacity, model := applyList redoF s st.model,
               store := st.store ++ s, location := st.store.length + s.length } := by
  intro s
  induction s with
  | nil =>
      intro st hloc _
      cases st
      simp only [InMemoryUndoStore.addAll, applyList, List.foldl_nil,
        List.append_nil, List.length_nil, Nat.add_zero]
      simp_all
  | cons c t ih =>
      intro st hloc hlen
      have hlt : st.store.length < st.capacity := by
        simp only [List.length_cons] at hlen; omega
      have hpost : InMemoryUndoStore.addCmd redoF st c =
          some { capacity := st.capacity, model := redoF c st.model,
                 store := st.store ++ [c], location := (st.store ++ [c]).length } := by
        simp only [InMemoryUndoStore.addCmd, InMemoryUndoStore.postCmd]
        rw [if_neg (by omega)]
        rw [evictLoop_of_lt hlt]
      simp only [InMemoryUndoStore.addAll, hpost]
      rw [ih _ (by simp) (by simp at hlen ⊢; omega)]
      simp only [Option.some.injEq, InMemoryUndoStore.mk.injEq, List.append_assoc,
        List.singleton_append, List.length_append, List.length_cons, List.length_nil]
      and_intros
      all_goals first
      | rfl
      | omega
      | simp [applyList]

theorem applyList_take_succ {C M : Type} (redoF : C → M → M) (s : List C)
    (dflt : M) (j : Nat) (hj : j < s.length) :
    ∀ c, s.get? j = some c →
      applyList redoF (s.take (j + 1)) dflt =
        redoF c (applyList redoF (s.take j) dflt) := by
  intro c hc
  have hc2 : s[j]? = some c := by rw [← List.get?_eq_getElem?] ; exact hc
  rw [List.take_succ, hc2]
  simp [applyList, List.foldl_append]

theorem undoN_tip {C M : Type} (redoF undoF : C → M → M)
    (hinv : ∀ c m, undoF c (redoF c m) = m) (cap : Nat) (s : List C) (dflt : M) :
    ∀ (k j : Nat), k ≤ j → j ≤ s.length →
      InMemoryUndoStore.undoN undoF
        ⟨cap, applyList redoF (s.take j) dflt, s, j⟩ k =
      ⟨cap, applyList redoF (s.take (j - k)) dflt, s, j - k⟩ := by
  intro k
  induction k with
  | zero => intro j _ _; simp [InMemoryUndoStore.undoN]
  | succ n ih =>
      intro j hk hj
      have h1 : 1 ≤ j := by omega
      have hc : s.get? (j - 1) = some (s.get ⟨j - 1, by omega⟩) :=
        List.get?_eq_get (by omega)
      set c := s.get ⟨j - 1, by omega⟩ with hcdef
      have hmodel : applyList redoF (s.take j) dflt =
          redoF c (applyList redoF (s.take (j - 1)) dflt) := by
        have h2 := applyList_take_succ redoF s dflt (j - 1) (by omega) c hc
        rw [show j - 1 + 1 = j from by omega] at h2
        exact h2
      have hstep : InMemoryUndoStore.undoOp undoF
          (⟨cap, applyList redoF (s.take j) dflt, s, j⟩ : InMemoryUndoStore C M) =
          ⟨cap, applyList redoF (s.take (j - 1)) dflt, s, j - 1⟩ := by
        simp only [InMemoryUndoStore.undoOp, hc]
        rw [if_pos (show 0 < j from by omega)]
        rw [hmodel, hinv]
      simp only [InMemoryUndoStore.undoN, hstep]
      rw [ih (j - 1) (by omega) (by omega),
        show j - 1 - n = j - (n + 1) from by omega]

theorem redoN_tip {C M : Type} (redoF : C → M → M) (cap : Nat)
    (s : List C) (dflt : M) :
    ∀ (k j : Nat), j + k ≤ s.length →
      InMemoryUndoStore.redoN redoF
        ⟨cap, applyList redoF (s.take j) dflt, s, j⟩ k =
      ⟨cap, applyList redoF (s.take (j + k)) dflt, s, j + k⟩ := by
  intro k
  induction k with
  | zero => intro j _; simp [InMemoryUndoStore.redoN]
  | succ n ih =>
      intro j hj
      have hget : s.get? j = some (s.get ⟨j, by omega⟩) :=
        List.get?_eq_get (by omega)
      have hstep : InMemoryUndoStore.redoOp redoF
          (⟨cap, applyList redoF (s.take j) dflt, s, j⟩ : InMemoryUndoStore C M) =
          ⟨cap, applyList redoF (s.take (j + 1)) dflt, s, j + 1⟩ := by
        simp only [InMemoryUndoStore.redoOp]
        rw [hget]
        rw [applyList_take_succ redoF s dflt j (by omega) _ hget]
      simp only [InMemoryUndoStore.redoN, hstep]
      rw [ih (j + 1) (by omega), show j + 1 + n = j + (n + 1) from by omega]

/-! ## Claim C1 — in-memory round-trip -/

/-- C1, counterexample to the claim as stated: the claim quantifies over all
sequences, including those longer than the capacity.  With capacity `3` and
`s = [Add 3, Add 4, Add 5, Add 6]`, adding `s` and undoing `|s| = 4` times
leaves the model at `3`, not at the default `0` (the fourth undo is a no-op
because `Add 3` was evicted). -/
theorem C1_counterexample :
    (InMemoryUndoStore.addAll sumRedo (InMemoryUndoStore.new SumCmd (0 : Int) 3)
        [SumCmd.add 3, SumCmd.add 4, SumCmd.add 5, SumCmd.add 6]).map
      (fun st => (InMemoryUndoStore.undoN sumUndo st 4).model) = some 3 ∧
    (3 : Int) ≠ 0 := by
  exact ⟨rfl, by decide⟩

/-- C1 (amended — restricted to `|s| ≤ capacity`): for every sequence `s` of
commands whose `undo` inverts their `redo`, with `|s|` at most the store's
capacity, adding every element of `s` to a fresh `InMemoryUndoStore` and
undoing `|s|` times yields the default model, and then redoing `|s|` times
yields the model obtained by applying `s` in order to the default model. -/
theorem C1_inMemoryRoundTrip {C M : Type} (redoF undoF : C → M → M)
    (dflt : M) (cap : Nat) (s : List C)
    (hinv : ∀ c m, undoF c (redoF c m) = m)
    (hlen : s.length ≤ cap) :
    ∃ st, InMemoryUndoStore.addAll redoF (InMemoryUndoStore.new C dflt cap) s
        = some st ∧
      (InMemoryUndoStore.undoN undoF st s.length).model = dflt ∧
      (InMemoryUndoStore.redoN redoF
          (InMemoryUndoStore.undoN undoF st s.length) s.length).model
        = applyList redoF s dflt := by
  have hadd := addAll_of_le redoF s (InMemoryUndoStore.new C dflt cap)
    (by simp [InMemoryUndoStore.new]) (by simpa [InMemoryUndoStore.new] using hlen)
  refine ⟨_, hadd, ?_, ?_⟩
  · have hu := undoN_tip redoF undoF hinv cap s dflt s.length s.length le_rfl le_rfl
    rw [List.take_length, Nat.sub_self, List.take_zero] at hu
    simp only [InMemoryUndoStore.new, List.nil_append, List.length_nil, Nat.zero_add]
    rw [hu]
    simp [applyList]
  · have hu := undoN_tip redoF undoF hinv cap s dflt s.length s.length le_rfl le_rfl
    rw [List.take_length, Nat.sub_self, List.take_zero] at hu
    have hr := redoN_tip redoF cap s dflt s.length 0 (by omega)
    rw [List.take_zero, Nat.zero_add, List.take_length] at hr
    simp only [InMemoryUndoStore.new, List.nil_append, List.length_nil, Nat.zero_add]
    rw [hu, hr]

/-- Witness for C1: the amended round-trip at `s = [Add 1, Sub 2]`,
capacity `3`. -/
theorem C1_inMemoryRoundTrip_witness :
    ∃ st, InMemoryUndoStore.addAll sumRedo (InMemoryUndoStore.new SumCmd (0 : Int) 3)
        [SumCmd.add 1, SumCmd.sub 2] = some st ∧
      (InMemoryUndoStore.undoN sumUndo st 2).model = 0 ∧
      (InMemoryUndoStore.redoN sumRedo (InMemoryUndoStore.undoN sumUndo st 2) 2).model
        = applyList sumRedo [SumCmd.add 1, SumCmd.sub 2] 0 :=
  C1_inMemoryRoundTrip sumRedo sumUndo 0 3 [SumCmd.add 1, SumCmd.sub 2]
    (fun c m => by cases c <;> simp [sumRedo, sumUndo]) (by decide)

/-! ## Claim C4 — bounded eviction scenario -/

/-- C4: on a fresh in-memory store with capacity 3, `Add(3); Add(4); Add(5);
Add(6)` yields model `18`, and four successive undos produce the trace
`18, 12, 7, 3, 3`; the fourth undo is a no-op (the whole state is unchanged)
because `Add(3)` was evicted. -/
theorem C4_boundedEviction :
    ((InMemoryUndoStore.addAll sumRedo (InMemoryUndoStore.new SumCmd (0 : Int) 3)
        [SumCmd.add 3, SumCmd.add 4, SumCmd.add 5, SumCmd.add 6]).map
      (fun st => ((InMemoryUndoStore.undoN sumUndo st 0).model,
                  (InMemoryUndoStore.undoN sumUndo st 1).model,
                  (InMemoryUndoStore.undoN sumUndo st 2).model,
                  (InMemoryUndoStore.undoN sumUndo st 3).model,
                  (InMemoryUndoStore.undoN sumUndo st 4).model))
      = some (18, 12, 7, 3, 3)) ∧
    ((InMemoryUndoStore.addAll sumRedo (InMemoryUndoStore.new SumCmd (0 : Int) 3)
        [SumCmd.add 3, SumCmd.add 4, SumCmd.add 5, SumCmd.add 6]).map
      (fun st => InMemoryUndoStore.undoN sumUndo st 4)
      = (InMemoryUndoStore.addAll sumRedo (InMemoryUndoStore.new SumCmd (0 : Int) 3)
        [SumCmd.add 3, SumCmd.add 4, SumCmd.add 5, SumCmd.add 6]).map
      (fun st => InMemoryUndoStore.undoN sumUndo st 3)) ∧
    ((InMemoryUndoStore.addAll sumRedo (InMemoryUndoStore.new SumCmd (0 : Int) 3)
        [SumCmd.add 3, SumCmd.add 4, SumCmd.add 5, SumCmd.add 6]).map
      (fun st => st.store.contains (SumCmd.add 3)) = some false) := by
  exact ⟨rfl, by decide, by decide⟩

/-! ## Claim C5 — precondition violations are silent no-ops -/

/-- C5: for both variants, `undo` when `can_undo` is false and `redo` when
`can_redo` is false perform no operation: the in-memory store is returned
unchanged, and the durable facade is returned unchanged (`some s`: no request
is sent to the worker, so the model, the client bookkeeping and the on-disk
state are untouched, and no error or panic is produced). -/
theorem C5_preconditionNoop :
    (∀ (C M : Type) (undoF : C → M → M) (s : InMemoryUndoStore C M),
        InMemoryUndoStore.canUndo s = false →
        InMemoryUndoStore.undoOp undoF s = s) ∧
    (∀ (C M : Type) (redoF : C → M → M) (s : InMemoryUndoStore C M),
        InMemoryUndoStore.canRedo s = false →
        InMemoryUndoStore.redoOp redoF s = s) ∧
    (∀ (C M : Type) (redoF undoF : C → M → M) (L : Nat) (s : SqliteStore C M),
        sqliteStoreCanUndo s = false →
        sqliteStoreUndo redoF undoF L s = some s) ∧
    (∀ (C M : Type) (redoF : C → M → M) (L : Nat) (s : SqliteStore C M),
        sqliteStoreCanRedo s = false →
        sqliteStoreRedo redoF L s = some s) := by
  refine ⟨?_, ?_, ?_, ?_⟩
  · intro C M undoF s h
    simp only [InMemoryUndoStore.canUndo, decide_eq_false_iff_not, Nat.not_lt,
      Nat.le_zero] at h
    simp [InMemoryUndoStore.undoOp, h]
  · intro C M redoF s h
    simp only [InMemoryUndoStore.canRedo, decide_eq_false_iff_not, Nat.not_lt] at h
    simp [InMemoryUndoStore.redoOp, List.get?_eq_getElem?, List.getElem?_eq_none h]
  · intro C M redoF undoF L s h
    simp only [sqliteStoreCanUndo] at h
    simp [sqliteStoreUndo, h]
  · intro C M redoF L s h
    simp only [sqliteStoreCanRedo] at h
    simp [sqliteStoreRedo, h]

/-- Witness for C5 at concrete stores: a fresh in-memory store and a freshly
opened durable store, where neither undo nor redo is possible. -/
theorem C5_preconditionNoop_witness :
    InMemoryUndoStore.undoOp sumUndo (InMemoryUndoStore.new SumCmd (0 : Int) 3)
      = InMemoryUndoStore.new SumCmd (0 : Int) 3 ∧
    InMemoryUndoStore.redoOp sumRedo (InMemoryUndoStore.new SumCmd (0 : Int) 3)
      = InMemoryUndoStore.new SumCmd (0 : Int) 3 ∧
    sqliteStoreUndo sumRedo sumUndo 100 sqliteFresh = some sqliteFresh ∧
    sqliteStoreRedo sumRedo 100 sqliteFresh = some sqliteFresh :=
  ⟨C5_preconditionNoop.1 SumCmd Int sumUndo _ (by decide),
   C5_preconditionNoop.2.1 SumCmd Int sumRedo _ (by decide),
   C5_preconditionNoop.2.2.1 SumCmd Int sumRedo sumUndo 100 sqliteFresh rfl,
   C5_preconditionNoop.2.2.2 SumCmd Int sumRedo 100 sqliteFresh rfl⟩

/-! ## Claim C10 — zero capacity panics, positive capacity is safe -/

/-- C10: `InMemoryUndoStore::new(0)` followed by `add_cmd` panics (the
eviction loop removes index 0 from an empty buffer — modelled as `none`),
and the same holds for `mutate` committing a command (both go through
`post_cmd`); for every capacity at least 1, `add_cmd` on a store whose
buffer respects the capacity never panics and keeps the history length at
most the capacity. -/
theorem C10_zeroCapacity :
    (∀ (C M : Type) (redoF : C → M → M) (dflt : M) (cmd : C),
        InMemoryUndoStore.addCmd redoF (InMemoryUndoStore.new C dflt 0) cmd = none) ∧
    (∀ (C M : Type) (dflt m2 : M) (cmd : C),
        InMemoryUndoStore.mutateOk (InMemoryUndoStore.new C dflt 0) m2 cmd = none) ∧
    (∀ (C M : Type) (redoF : C → M → M) (s : InMemoryUndoStore C M) (cmd : C),
        1 ≤ s.capacity → s.store.length ≤ s.capacity →
        ∃ s2, InMemoryUndoStore.addCmd redoF s cmd = some s2 ∧
          s2.store.length ≤ s.capacity ∧ s2.capacity = s.capacity) := by
  refine ⟨?_, ?_, ?_⟩
  · intro C M redoF dflt cmd
    rfl
  · intro C M dflt m2 cmd
    rfl
  · intro C M redoF s cmd hcap _hlen
    obtain ⟨l2, hev, hl2⟩ := evictLoop_total hcap
      (if s.location < s.store.length then s.store.take s.location else s.store)
    refine ⟨{ capacity := s.capacity, model := redoF cmd s.model,
              store := l2 ++ [cmd], location := (l2 ++ [cmd]).length }, ?_, ?_, rfl⟩
    · simp only [InMemoryUndoStore.addCmd, InMemoryUndoStore.postCmd]
      rw [hev]
    · simp only [List.length_append, List.length_cons, List.length_nil]
      omega

/-! ## Helper lemmas: the persister client -/

theorem waitUndoResp_append_acks {C : Type} :
    ∀ (acks : List Int) (c : ClientState) (l : List (PersistResp C)),
      waitUndoResp c (acks.map PersistResp.addCmdOk ++ l) =
      waitUndoResp
        (acks.foldl (fun cc a => { cc with lastProcessedSeqNo := some a }) c) l := by
  intro acks
  induction acks with
  | nil => intro c l; rfl
  | cons a t ih =>
      intro c l
      simp only [List.map_cons, List.cons_append, waitUndoResp, List.foldl_cons]
      exact ih _ l

theorem waitRedoResp_append_acks {C : Type} :
    ∀ (acks : List Int) (c : ClientState) (l : List (PersistResp C)),
      waitRedoResp c (acks.map PersistResp.addCmdOk ++ l) =
      waitRedoResp
        (acks.foldl (fun cc a => { cc with lastProcessedSeqNo := some a }) c) l := by
  intro acks
  induction acks with
  | nil => intro c l; rfl
  | cons a t ih =>
      intro c l
      simp only [List.map_cons, List.cons_append, waitRedoResp, List.foldl_cons]
      exact ih _ l

theorem foldl_ack_fields (acks : List Int) :
    ∀ c : ClientState,
      (acks.foldl (fun cc a => { cc with lastProcessedSeqNo := some a }) c).lastSeqNo
          = c.lastSeqNo ∧
      (acks.foldl (fun cc a => { cc with lastProcessedSeqNo := some a }) c).minSeqNo
          = c.minSeqNo ∧
      (acks.foldl (fun cc a => { cc with lastProcessedSeqNo := some a }) c).maxSeqNo
          = c.maxSeqNo := by
  induction acks with
  | nil => intro c; exact ⟨rfl, rfl, rfl⟩
  | cons a t ih => intro c; simpa using ih { c with lastProcessedSeqNo := some a }

/-! ## Helper lemmas: the persister server's write path -/

theorem keyUnique {A : Type} :
    ∀ {l : List (Int × A)}, l.Pairwise (fun p q => p.1 < q.1) →
      ∀ {i : Int} {a b : A}, (i, a) ∈ l → (i, b) ∈ l → a = b := by
  intro l
  induction l with
  | nil => intro _ i a b ha _; cases ha
  | cons hd tl ih =>
      intro hp i a b ha hb
      rw [List.pairwise_cons] at hp
      rcases List.mem_cons.mp ha with ha1 | ha1 <;>
        rcases List.mem_cons.mp hb with hb1 | hb1
      · rw [← ha1] at hb1
        exact (Prod.mk.injEq _ _ _ _ ▸ hb1.symm).2
      · cases ha1
        have := hp.1 _ hb1
        simp at this
      · cases hb1
        have := hp.1 _ ha1
        simp at this
      · exact ih hp.2 ha1 hb1

theorem srvAddCmd_commands {C M : Type} (redoF : C → M → M) (L : Nat)
    (seqNo : Int) (cmd : C) (st : SrvState C M) :
    (srvAddCmd redoF L seqNo cmd st).state.commands =
      (trimUndoRecords ((st.commands.filter (fun p => decide (p.1 < seqNo + 1)))
        ++ [(seqNo + 1, cmd)]) L).2 := by
  simp only [srvAddCmd]
  split <;> rfl

theorem srvAddCmd_emitted {C M : Type} (redoF : C → M → M) (L : Nat)
    (seqNo : Int) (cmd : C) (st : SrvState C M) :
    (srvAddCmd redoF L seqNo cmd st).emitted =
      if (seqNo + 1 : Int) == MAX_COMMAND_ID
      then [PersistResp.addCmdErr StoreErr.needCompaction] else [] := by
  simp only [srvAddCmd]
  split <;> rfl

theorem srvHandleAddCmd_commands {C M : Type} (redoF : C → M → M) (L : Nat)
    (seqNo : Int) (cmd : C) (st : SrvState C M) :
    (srvHandleAddCmd redoF L seqNo cmd st).1.commands =
      (srvAddCmd redoF L seqNo cmd st).state.commands := by
  simp only [srvHandleAddCmd]
  split <;> rfl

theorem srvHandleAddCmd_resps {C M : Type} (redoF : C → M → M) (L : Nat)
    (seqNo : Int) (cmd : C) (st : SrvState C M) :
    ∃ r, (srvHandleAddCmd redoF L seqNo cmd st).2 =
      (srvAddCmd redoF L seqNo cmd st).emitted ++ [r] := by
  simp only [srvHandleAddCmd]
  split <;> exact ⟨_, rfl⟩

theorem srvHandleAddCmd_resps_ok {C M : Type} (redoF : C → M → M) (L : Nat)
    (seqNo : Int) (cmd : C) (st : SrvState C M)
    (h : (srvAddCmd redoF L seqNo cmd st).result = Except.ok ()) :
    (srvHandleAddCmd redoF L seqNo cmd st).2 =
      (srvAddCmd redoF L seqNo cmd st).emitted ++
        [PersistResp.addCmdOk (seqNo + 1)] := by
  simp only [srvHandleAddCmd, h]

theorem foldl_max_le : ∀ (ks : List Int) (k m : Int), k ≤ m →
    (∀ x ∈ ks, x ≤ m) → ks.foldl max k ≤ m := by
  intro ks
  induction ks with
  | nil => intro k m hk _; exact hk
  | cons x t ih =>
      intro k m hk hall
      simp only [List.foldl_cons]
      exact ih _ m (max_le hk (hall x (List.mem_cons_self x t)))
        (fun y hy => hall y (List.mem_cons_of_mem x hy))

theorem maxKey_concat {A : Type} (l : List (Int × A)) (q : Int × A)
    (h : ∀ p ∈ l, p.1 < q.1) : maxKey (l ++ [q]) = some q.1 := by
  cases l with
  | nil => rfl
  | cons p0 t =>
      simp only [maxKey, List.map_append, List.map_cons, List.cons_append,
        List.map_nil, List.foldl_append, List.foldl_cons, List.foldl_nil,
        Option.some.injEq]
      refine max_eq_right ?_
      refine foldl_max_le _ _ _ (le_of_lt (h p0 (List.mem_cons_self _ _))) ?_
      intro x hx
      rcases List.mem_map.mp hx with ⟨p, hp, heq⟩
      rw [← heq]
      exact le_of_lt (h p (List.mem_cons_of_mem _ hp))

theorem trimSnapshots_concat {M : Type} (l : List (Int × M)) (q : Int × M)
    (h : ∀ p ∈ l, p.1 < q.1) : trimSnapshots (l ++ [q]) = [q] := by
  simp only [trimSnapshots, maxKey_concat l q h]
  rw [List.filter_append]
  have h1 : l.filter (fun p => !decide (p.1 < q.1)) = [] := by
    rw [List.filter_eq_nil_iff]
    intro p hp
    simp [h p hp]
  rw [h1]
  simp

theorem trimSnapshots_sorted {M : Type} (l : List (Int × M))
    (hp : l.Pairwise (fun p q => p.1 < q.1)) :
    trimSnapshots l = l.getLast?.toList := by
  rcases List.eq_nil_or_concat l with rfl | ⟨l2, q, rfl⟩
  · rfl
  · rw [List.concat_eq_append] at hp ⊢
    have hlt : ∀ p ∈ l2, p.1 < q.1 := by
      intro p hp2
      exact (List.pairwise_append.mp hp).2.2 p hp2 q (List.mem_singleton.mpr rfl)
    rw [trimSnapshots_concat l2 q hlt, List.getLast?_concat]
    rfl

theorem tableInsert_concat {A : Type} :
    ∀ (l : List (Int × A)) (id : Int) (v : A), (∀ p ∈ l, p.1 < id) →
      tableInsert l id v = l ++ [(id, v)] := by
  intro l
  induction l with
  | nil => intro id v _; rfl
  | cons p t ih =>
      intro id v h
      simp only [tableInsert]
      rw [if_neg (by
        have := h p (List.mem_cons_self _ _)
        omega)]
      rw [ih id v (fun p2 hp2 => h p2 (List.mem_cons_of_mem _ hp2))]
      rfl

theorem saveSnapshot_ok {M : Type} (l : List (Int × M)) (id : Int) (v : M)
    (h : ∀ p ∈ l, p.1 < id) :
    saveSnapshot l id v = Except.ok (l ++ [(id, v)]) := by
  simp only [saveSnapshot]
  rw [if_neg, tableInsert_concat l id v h]
  simp only [List.any_eq_true, beq_iff_eq]
  rintro ⟨p, hp, hpe⟩
  have := h p hp
  omega

theorem saveSnapshot_nil {M : Type} (id : Int) (v : M) :
    saveSnapshot ([] : List (Int × M)) id v = Except.ok [(id, v)] := rfl

/-- Evaluation of the write path's snapshot phase: under the invariant that
every stored snapshot id is below the newly assigned id, `add_cmd` succeeds
and its final snapshot table is the one described by the source's three
rules. -/
theorem srvAddCmd_eval {C M : Type} (redoF : C → M → M) (L : Nat)
    (seqNo : Int) (cmd : C) (st : SrvState C M)
    (hlt : ∀ p ∈ st.snapshots, p.1 < seqNo + 1) :
    (srvAddCmd redoF L seqNo cmd st).result = Except.ok () ∧
    (srvAddCmd redoF L seqNo cmd st).state.snapshots =
      (let seq := seqNo + 1
       let m2 := redoF cmd st.model
       let kept := st.commands.filter (fun p => decide (p.1 < seq))
       let snaps1 :=
         if (trimUndoRecords (kept ++ [(seq, cmd)]) L).1 ≠ 0 then
           match getLastSnapshotId st.snapshots with
           | none => st.snapshots ++ [(seq, m2)]
           | some last =>
               if last < seq - (L : Int) then st.snapshots ++ [(seq, m2)]
               else st.snapshots
         else st.snapshots
       if st.commands.length - kept.length ≠ 0 then [(seq, m2)]
       else trimSnapshots snaps1) := by
  have hsave := saveSnapshot_ok st.snapshots (seqNo + 1) (redoF cmd st.model) hlt
  by_cases hR : (trimUndoRecords
      ((st.commands.filter (fun p => decide (p.1 < seqNo + 1)))
        ++ [(seqNo + 1, cmd)]) L).1 ≠ 0
  · cases hlast : getLastSnapshotId st.snapshots with
    | none =>
        constructor <;> simp [srvAddCmd, hR, hlast, hsave, saveSnapshot_nil]
    | some last =>
        by_cases hcond : last < seqNo + 1 - (L : Int)
        · constructor <;> simp [srvAddCmd, hR, hlast, hcond, hsave, saveSnapshot_nil]
        · constructor <;> simp [srvAddCmd, hR, hlast, hcond, hsave, saveSnapshot_nil]
  · constructor <;> simp [srvAddCmd, hR, hsave, saveSnapshot_nil]

/-! ## Helper lemmas: the restore engine -/

theorem intRange_succ (a : Int) (n : Nat) :
    intRange a (n + 1) = a :: intRange (a + 1) n := by
  simp only [intRange, List.range_succ_eq_map, List.map_cons]
  congr 1
  · simp
  · rw [List.map_map]
    refine List.map_congr_left ?_
    intro i _
    simp only [Function.comp_apply]
    push_cast
    ring

theorem intRangeDown_succ (a : Int) (n : Nat) :
    intRangeDown a (n + 1) = a :: intRangeDown (a - 1) n := by
  simp only [intRangeDown, List.range_succ_eq_map, List.map_cons]
  congr 1
  · simp
  · rw [List.map_map]
    refine List.map_congr_left ?_
    intro i _
    simp only [Function.comp_apply]
    push_cast
    ring

theorem replayAsc_spec {C M : Type} (redoF : C → M → M) (sid : Option Int) :
    ∀ (rows : List (Int × C)) (expect : Int) (m : M),
      (rows.map Prod.fst = intRange expect rows.length ∧
        replayAsc redoF sid rows expect m =
          Except.ok (applyList redoF (rows.map Prod.snd) m)) ∨
      (rows.map Prod.fst ≠ intRange expect rows.length ∧
        ∃ nf, replayAsc redoF sid rows expect m =
          Except.error (StoreErr.cannotRestoreModel sid nf)) := by
  intro rows
  induction rows with
  | nil =>
      intro expect m
      exact Or.inl ⟨by simp [intRange], rfl⟩
  | cons p t ih =>
      intro expect m
      obtain ⟨id, c⟩ := p
      by_cases hid : id = expect
      · subst hid
        rcases ih (id + 1) (redoF c m) with ⟨h1, h2⟩ | ⟨h1, nf, h2⟩
        · refine Or.inl ⟨?_, ?_⟩
          · simp only [List.map_cons, List.length_cons, intRange_succ]
            rw [h1]
          · simp [replayAsc, h2, applyList]
        · refine Or.inr ⟨?_, nf, ?_⟩
          · simp only [List.map_cons, List.length_cons, intRange_succ]
            simp [h1]
          · simp [replayAsc, h2]
      · refine Or.inr ⟨?_, expect, ?_⟩
        · simp only [List.map_cons, List.length_cons, intRange_succ]
          simp [hid]
        · simp [replayAsc, hid]

theorem replayDesc_ok {C M : Type} (undoF : C → M → M) (S : Int) :
    ∀ (rows : List (Int × C)) (expect : Int) (m : M),
      rows.map Prod.fst = intRangeDown expect rows.length →
      replayDesc undoF S rows expect m =
        Except.ok (applyList undoF (rows.map Prod.snd) m) := by
  intro rows
  induction rows with
  | nil => intro expect m _; rfl
  | cons p t ih =>
      intro expect m h
      obtain ⟨id, c⟩ := p
      simp only [List.map_cons, List.length_cons, intRangeDown_succ,
        List.cons.injEq] at h
      obtain ⟨rfl, h2⟩ := h
      simp [replayDesc, ih (id - 1) (undoF c m) h2, applyList]

/-! ## Claim C2 — the restore algorithm -/

/-- C2, counterexample to the claim as stated: with an empty command table,
no snapshot and persisted `cur = 1`, the stored command ids (none) do not
form the contiguous sequence `1, …, cur`, yet `restore_model` succeeds and
returns the default model instead of a restore error: ids missing between
the greatest stored id and `cur` are not detected. -/
theorem C2_counterexample :
    restoreModel sumRedo sumUndo (0 : Int) ([] : List (Int × SumCmd)) [] 1
      = Except.ok (1, 0) ∧
    (∀ e, restoreModel sumRedo sumUndo (0 : Int) ([] : List (Int × SumCmd)) [] 1
      ≠ Except.error e) := by
  exact ⟨rfl, fun e h => by cases h⟩

/-- C2 (amended): at open, `restore_model` behaves as follows.  If the
persisted `cur` is `0` the model is the default.  Otherwise, if no eligible
snapshot exists, the model is rebuilt by replaying the stored commands with
ids `≤ cur` in ascending order via `redo` from the default model, and a
restore error is returned exactly when those ids fail to form a contiguous
sequence `1, 2, …, k` (ids missing above `k` up to `cur` are not detected).
If an eligible snapshot `(S, model_S)` exists: when `cur = S` the snapshot
model is used as-is; when `S < cur`, commands in `(S, cur]` are replayed in
ascending order via `redo` from `model_S`; when `cur < S`, commands in
`(cur, S]` are replayed in descending order via `undo` from `model_S`. -/
theorem C2_restoreModel {C M : Type} (redoF undoF : C → M → M) (dflt : M)
    (cmds : List (Int × C)) (snaps : List (Int × M)) (cur : Int) :
    (cur = 0 → restoreModel redoF undoF dflt cmds snaps cur
        = Except.ok (0, dflt)) ∧
    (cur ≠ 0 → loadLastSnapshot cmds snaps = none →
      ((cmds.filter (fun p => decide (p.1 ≤ cur))).map Prod.fst =
          intRange 1 (cmds.filter (fun p => decide (p.1 ≤ cur))).length →
        restoreModel redoF undoF dflt cmds snaps cur = Except.ok (cur,
          applyList redoF
            ((cmds.filter (fun p => decide (p.1 ≤ cur))).map Prod.snd) dflt)) ∧
      ((cmds.filter (fun p => decide (p.1 ≤ cur))).map Prod.fst ≠
          intRange 1 (cmds.filter (fun p => decide (p.1 ≤ cur))).length →
        ∃ nf, restoreModel redoF undoF dflt cmds snaps cur
          = Except.error (StoreErr.cannotRestoreModel none nf))) ∧
    (∀ S modelS, cur ≠ 0 → loadLastSnapshot cmds snaps = some (S, modelS) →
      (cur = S → restoreModel redoF undoF dflt cmds snaps cur
          = Except.ok (cur, modelS)) ∧
      (S < cur →
        (cmds.filter (fun p => decide (S < p.1) && decide (p.1 ≤ cur))).map Prod.fst =
          intRange (S + 1)
            (cmds.filter (fun p => decide (S < p.1) && decide (p.1 ≤ cur))).length →
        restoreModel redoF undoF dflt cmds snaps cur = Except.ok (cur,
          applyList redoF
            ((cmds.filter (fun p => decide (S < p.1) && decide (p.1 ≤ cur))).map
              Prod.snd) modelS)) ∧
      (cur < S →
        ((cmds.filter (fun p => decide (cur < p.1) && decide (p.1 ≤ S))).reverse).map
            Prod.fst =
          intRangeDown S
            ((cmds.filter (fun p => decide (cur < p.1) && decide (p.1 ≤ S))).reverse).length →
        restoreModel redoF undoF dflt cmds snaps cur = Except.ok (cur,
          applyList undoF
            (((cmds.filter (fun p => decide (cur < p.1) && decide (p.1 ≤ S))).reverse).map
              Prod.snd) modelS))) := by
  refine ⟨?_, ?_, ?_⟩
  · intro hc
    simp [restoreModel, hc]
  · intro hc hsnap
    constructor
    · intro hids
      rcases replayAsc_spec redoF none
          (cmds.filter (fun p => decide (p.1 ≤ cur))) 1 dflt with ⟨_, h2⟩ | ⟨h1, _⟩
      · simp [restoreModel, hc, hsnap, loadWithoutSnapshot, h2, Except.map]
      · exact absurd hids h1
    · intro hids
      rcases replayAsc_spec redoF none
          (cmds.filter (fun p => decide (p.1 ≤ cur))) 1 dflt with ⟨h1, _⟩ | ⟨_, nf, h2⟩
      · exact absurd h1 hids
      · exact ⟨nf, by
          simp [restoreModel, hc, hsnap, loadWithoutSnapshot, h2, Except.map]⟩
  · intro S modelS hc hsnap
    refine ⟨?_, ?_, ?_⟩
    · intro hcs
      subst hcs
      simp [restoreModel, hc, hsnap]
    · intro hlt hids
      rcases replayAsc_spec redoF (some S)
          (cmds.filter (fun p => decide (S < p.1) && decide (p.1 ≤ cur)))
          (S + 1) modelS with ⟨_, h2⟩ | ⟨h1, _⟩
      · simp [restoreModel, hc, hsnap, hlt, not_lt_of_gt hlt, h2, Except.map]
      · exact absurd hids h1
    · intro hlt hids
      have h := replayDesc_ok undoF S
        ((cmds.filter (fun p => decide (cur < p.1) && decide (p.1 ≤ S))).reverse)
        S modelS hids
      simp [restoreModel, hc, hsnap, hlt, h, Except.map]

/-- Witness for C2: restore with commands `Add(1), Add(2), Add(3)` at ids
1–3, a snapshot `(1, 1)` and `cur = 3`: commands 2 and 3 are replayed
ascending from the snapshot model, giving `6`. -/
theorem C2_restoreModel_witness :
    restoreModel sumRedo sumUndo (0 : Int)
      [(1, SumCmd.add 1), (2, SumCmd.add 2), (3, SumCmd.add 3)]
      [(1, (1 : Int))] 3 = Except.ok (3, 6) := by
  have h := ((C2_restoreModel sumRedo sumUndo (0 : Int)
      [(1, SumCmd.add 1), (2, SumCmd.add 2), (3, SumCmd.add 3)]
      [(1, (1 : Int))] 3).2.2 1 1 (by decide) (by rfl)).2.1
    (by decide) (by decide)
  simpa using h

/-! ## Claim C3 — snapshot policy in the durable write path -/

/-- C3: for a write with pre-state `st` (snapshot ids sorted and below the
new id, as in every reachable state), with `D` the number of commands deleted
by branch truncation and `R` the number removed by trimming: the write
succeeds; if `D > 0` the final snapshot table is exactly a fresh snapshot of
the current model at the new `cur`; if `D = 0` and `R > 0`, a snapshot at the
new `cur` is present exactly when no snapshot existed or the latest snapshot
id was less than `cur - L` (otherwise only the greatest pre-existing snapshot
survives and none exists at `cur`); and if `D = 0` and `R = 0`, all snapshots
except the one with the greatest `snapshot_id` are deleted. -/
theorem C3_snapshotPolicy {C M : Type} (redoF : C → M → M) (L : Nat)
    (seqNo : Int) (cmd : C) (st : SrvState C M)
    (hsort : st.snapshots.Pairwise (fun p q => p.1 < q.1))
    (hlt : ∀ p ∈ st.snapshots, p.1 < seqNo + 1) :
    (srvAddCmd redoF L seqNo cmd st).result = Except.ok () ∧
    (st.commands.length -
        (st.commands.filter (fun p => decide (p.1 < seqNo + 1))).length ≠ 0 →
      (srvAddCmd redoF L seqNo cmd st).state.snapshots
        = [(seqNo + 1, redoF cmd st.model)]) ∧
    (st.commands.length -
        (st.commands.filter (fun p => decide (p.1 < seqNo + 1))).length = 0 →
      (trimUndoRecords ((st.commands.filter (fun p => decide (p.1 < seqNo + 1)))
          ++ [(seqNo + 1, cmd)]) L).1 ≠ 0 →
      (getLastSnapshotId st.snapshots = none ∨
        (∃ last, getLastSnapshotId st.snapshots = some last ∧
          last < seqNo + 1 - (L : Int))) →
      (srvAddCmd redoF L seqNo cmd st).state.snapshots
        = [(seqNo + 1, redoF cmd st.model)]) ∧
    (st.commands.length -
        (st.commands.filter (fun p => decide (p.1 < seqNo + 1))).length = 0 →
      (trimUndoRecords ((st.commands.filter (fun p => decide (p.1 < seqNo + 1)))
          ++ [(seqNo + 1, cmd)]) L).1 ≠ 0 →
      ∀ last, getLastSnapshotId st.snapshots = some last →
        ¬(last < seqNo + 1 - (L : Int)) →
        (srvAddCmd redoF L seqNo cmd st).state.snapshots
            = st.snapshots.getLast?.toList ∧
        ∀ m2 : M, (seqNo + 1, m2) ∉ (srvAddCmd redoF L seqNo cmd st).state.snapshots) ∧
    (st.commands.length -
        (st.commands.filter (fun p => decide (p.1 < seqNo + 1))).length = 0 →
      (trimUndoRecords ((st.commands.filter (fun p => decide (p.1 < seqNo + 1)))
          ++ [(seqNo + 1, cmd)]) L).1 = 0 →
      (srvAddCmd redoF L seqNo cmd st).state.snapshots
        = st.snapshots.getLast?.toList) := by
  obtain ⟨hok, hsnap⟩ := srvAddCmd_eval redoF L seqNo cmd st hlt
  have hltQ : ∀ p ∈ st.snapshots, p.1 < ((seqNo + 1, redoF cmd st.model) : Int × M).1 :=
    hlt
  have hnotmem : ∀ m2 : M, (seqNo + 1, m2) ∉ st.snapshots.getLast?.toList := by
    intro m2 hm
    cases hq : st.snapshots.getLast? with
    | none => rw [hq] at hm; cases hm
    | some q =>
        rw [hq] at hm
        obtain ⟨hne, hx⟩ := List.mem_getLast?_eq_getLast
          (show q ∈ st.snapshots.getLast? by rw [Option.mem_def, hq])
        have hqmem : q ∈ st.snapshots := hx ▸ List.getLast_mem hne
        have := hlt q hqmem
        have heq : ((seqNo + 1 : Int), m2) = q := List.mem_singleton.mp hm
        rw [← heq] at this
        simp at this
  refine ⟨hok, ?_, ?_, ?_, ?_⟩
  · intro hD
    rw [hsnap]
    simp [hD]
  · intro hD hR hcond
    rw [hsnap]
    rcases hcond with h | ⟨last, hl, hc⟩
    · simp only [hD, hR, h, if_true, if_pos, ne_eq, not_true_eq_false,
        if_false, reduceCtorEq]
      simp [hD, hR, h]
      exact trimSnapshots_concat _ _ hltQ
    · simp [hD, hR, hl, hc]
      exact trimSnapshots_concat _ _ hltQ
  · intro hD hR last hl hc
    have heq : (srvAddCmd redoF L seqNo cmd st).state.snapshots
        = st.snapshots.getLast?.toList := by
      rw [hsnap]
      simp [hD, hR, hl, hc]
      exact trimSnapshots_sorted _ hsort
    exact ⟨heq, fun m2 hm => hnotmem m2 (heq ▸ hm)⟩
  · intro hD hR
    rw [hsnap]
    simp [hD, hR]
    exact trimSnapshots_sorted _ hsort

/-- Witness for C3: the write `Add(4)` on a store holding ids 1–3 with
`undo_limit = 3` and no snapshot: trimming removes one command and a first
snapshot is written at the new `cur = 4` with the encoded model `10`. -/
theorem C3_snapshotPolicy_witness :
    (srvAddCmd sumRedo 3 3 (SumCmd.add 4) c3St).state.snapshots
      = [(4, (10 : Int))] := by
  have h := (C3_snapshotPolicy sumRedo 3 3 (SumCmd.add 4) c3St
    (by decide) (by decide)).2.2.1 (by decide) (by decide)
    (Or.inl (by decide))
  simpa using h

/-! ## Claim C6 — command-id reuse -/

/-- C6, counterexample to the claim as stated: on a fresh durable store,
`add_cmd(Add(1))` assigns id `1`; after `undo`, a further `add_cmd(Add(2))`
deletes the redo tail and assigns the same id `1` to the different command
`Add(2)` — so a `command_id` is reused for a different command during the
store's lifetime, precisely in the undo-then-add case the claim singles
out. -/
theorem C6_counterexample :
    c6St1.commands = [(1, SumCmd.add 1)] ∧
    c6St3.commands = [(1, SumCmd.add 2)] ∧
    SumCmd.add 1 ≠ SumCmd.add 2 := by
  exact ⟨rfl, rfl, by decide⟩

/-- C6 (amended): `add_cmd` reassigns exactly the ids of the truncated redo
tail — every id at or above the newly assigned `cur + 1` is deleted and
`cur + 1` is rebound to the new command, while any id that keeps a binding
keeps the same command; and `undo`/`redo` never modify the command table at
all.  Ids are therefore never reused for a different command as long as the
original command remains stored, but they are reused after branch
truncation. -/
theorem C6_idReassignment :
    (∀ (C M : Type) (redoF : C → M → M) (L : Nat) (seqNo : Int) (cmd : C)
        (st : SrvState C M),
        st.commands.Pairwise (fun p q => p.1 < q.1) →
        ∀ (i : Int) (a b : C), (i, a) ∈ st.commands →
          (i, b) ∈ (srvAddCmd redoF L seqNo cmd st).state.commands →
          b = a ∨ (i = seqNo + 1 ∧ b = cmd)) ∧
    (∀ (C M : Type) (undoF : C → M → M) (st : SrvState C M),
        (srvUndo undoF st).1.commands = st.commands) ∧
    (∀ (C M : Type) (redoF : C → M → M) (st : SrvState C M),
        (srvRedo redoF st).1.commands = st.commands) := by
  refine ⟨?_, ?_, ?_⟩
  · intro C M redoF L seqNo cmd st hp i a b ha hb
    rw [srvAddCmd_commands] at hb
    have hb2 : (i, b) ∈ (st.commands.filter (fun p => decide (p.1 < seqNo + 1)))
        ++ [(seqNo + 1, cmd)] :=
      List.drop_subset _ _ hb
    rcases List.mem_append.mp hb2 with hb3 | hb3
    · exact Or.inl (keyUnique hp (List.mem_of_mem_filter hb3) ha)
    · rcases List.mem_singleton.mp hb3 with h
      exact Or.inr ⟨congrArg Prod.fst h, congrArg Prod.snd h⟩
  · intro C M undoF st
    cases h : tableLookup st.commands st.curSeqNo <;> simp [srvUndo, h]
  · intro C M redoF st
    cases h : tableLookup st.commands (st.curSeqNo + 1) <;> simp [srvRedo, h]

/-- Witness for C6: the amended statement applied to a store holding `Add(1)`
at id `1` with `cur = 0`; the surviving binding at id `1` is the new command
`Add(2)` and the right-hand disjunct holds. -/
theorem C6_idReassignment_witness :
    SumCmd.add 2 = SumCmd.add 1 ∨
      ((1 : Int) = 0 + 1 ∧ SumCmd.add 2 = SumCmd.add 2) :=
  C6_idReassignment.1 SumCmd Int sumRedo 100 0 (SumCmd.add 2)
    { commands := [(1, SumCmd.add 1)], snapshots := [], savedSeqNo := 1,
      curSeqNo := 0, model := 1 }
    (by decide) 1 (SumCmd.add 1) (SumCmd.add 2) (by decide) (by decide)

/-! ## Claim C7 — sequence exhaustion -/

/-- C7, counterexample to the claim as stated: with `cur = MAX_COMMAND_ID - 1`,
the write path inserts the new command at `MAX_COMMAND_ID` (the command IS
persisted), emits the needs-compaction error response, and then also
acknowledges the write with `AddCmdOk` — it does not refuse the write. -/
theorem C7_counterexample :
    ((srvHandleAddCmd sumRedo 100 (MAX_COMMAND_ID - 1) (SumCmd.add 2) c7St0).1.commands
      = [(MAX_COMMAND_ID - 1, SumCmd.add 1), (MAX_COMMAND_ID, SumCmd.add 2)]) ∧
    ((srvHandleAddCmd sumRedo 100 (MAX_COMMAND_ID - 1) (SumCmd.add 2) c7St0).2
      = [PersistResp.addCmdErr StoreErr.needCompaction,
         PersistResp.addCmdOk MAX_COMMAND_ID]) := by
  exact ⟨rfl, rfl⟩

/-- C7 (amended): when the assigned `command_id` equals the signed 64-bit
maximum, the durable write path reports a needs-compaction error response —
but the command is persisted (it is in the command table afterwards), and on
a successful body the normal `AddCmdOk` acknowledgement is also emitted; the
server does not itself refuse this or subsequent writes. -/
theorem C7_sequenceExhaustion {C M : Type} (redoF : C → M → M) (L : Nat)
    (hL : 1 ≤ L) (st : SrvState C M) (seqNo : Int) (cmd : C)
    (hmax : seqNo + 1 = MAX_COMMAND_ID) :
    (MAX_COMMAND_ID, cmd) ∈ (srvHandleAddCmd redoF L seqNo cmd st).1.commands ∧
    PersistResp.addCmdErr StoreErr.needCompaction
      ∈ (srvHandleAddCmd redoF L seqNo cmd st).2 ∧
    ((srvAddCmd redoF L seqNo cmd st).result = Except.ok () →
      PersistResp.addCmdOk MAX_COMMAND_ID
        ∈ (srvHandleAddCmd redoF L seqNo cmd st).2) := by
  have hemit : (srvAddCmd redoF L seqNo cmd st).emitted =
      [PersistResp.addCmdErr StoreErr.needCompaction] := by
    rw [srvAddCmd_emitted, hmax]
    simp
  refine ⟨?_, ?_, ?_⟩
  · rw [srvHandleAddCmd_commands, srvAddCmd_commands]
    set kept := st.commands.filter (fun p => decide (p.1 < seqNo + 1)) with hkept
    have hle : (kept ++ [(seqNo + 1, cmd)]).length - L ≤ kept.length := by
      simp only [List.length_append, List.length_cons, List.length_nil]
      omega
    simp only [trimUndoRecords]
    rw [List.drop_append_of_le_length hle]
    rw [hmax]
    exact List.mem_append.mpr (Or.inr (List.mem_singleton.mpr rfl))
  · obtain ⟨r, hr⟩ := srvHandleAddCmd_resps redoF L seqNo cmd st
    rw [hr, hemit]
    simp
  · intro hok
    rw [srvHandleAddCmd_resps_ok redoF L seqNo cmd st hok, hemit, hmax]
    simp

/-- Witness for C7 at a concrete store whose `cur` is `MAX_COMMAND_ID - 1`. -/
theorem C7_sequenceExhaustion_witness :
    (MAX_COMMAND_ID, SumCmd.add 2)
      ∈ (srvHandleAddCmd sumRedo 100 (MAX_COMMAND_ID - 1) (SumCmd.add 2) c7St0).1.commands ∧
    PersistResp.addCmdErr StoreErr.needCompaction
      ∈ (srvHandleAddCmd sumRedo 100 (MAX_COMMAND_ID - 1) (SumCmd.add 2) c7St0).2 ∧
    ((srvAddCmd sumRedo 100 (MAX_COMMAND_ID - 1) (SumCmd.add 2) c7St0).result
        = Except.ok () →
      PersistResp.addCmdOk MAX_COMMAND_ID
        ∈ (srvHandleAddCmd sumRedo 100 (MAX_COMMAND_ID - 1) (SumCmd.add 2) c7St0).2) :=
  C7_sequenceExhaustion sumRedo 100 (by decide) c7St0 (MAX_COMMAND_ID - 1)
    (SumCmd.add 2) (by decide)

/-! ## Claim C9 — failed undo/redo still moves the client's bookkeeping -/

/-- C9: when `PersisterClient::undo` receives an `UndoErr` response (possibly
after draining pending `AddCmdOk` acknowledgements), the error is returned
but `last_seq_no` is still decremented, while the cached `min`/`max` bounds
stay put — so the client's position bookkeeping (and hence its subsequent
`can_undo`/`can_redo` answers) changes although no command was applied; and
symmetrically `redo` receiving `RedoErr` still increments `last_seq_no`. -/
theorem C9_failedUndoRedoBookkeeping {C : Type} (c : ClientState) (e : StoreErr)
    (acks : List Int) (rest : List (PersistResp C)) :
    (clientUndo c (acks.map PersistResp.addCmdOk ++
        PersistResp.undoErr e :: rest)).1.lastSeqNo = c.lastSeqNo - 1 ∧
    (clientUndo c (acks.map PersistResp.addCmdOk ++
        PersistResp.undoErr e :: rest)).2 = Except.error e ∧
    (clientUndo c (acks.map PersistResp.addCmdOk ++
        PersistResp.undoErr e :: rest)).1.minSeqNo = c.minSeqNo ∧
    (clientUndo c (acks.map PersistResp.addCmdOk ++
        PersistResp.undoErr e :: rest)).1.maxSeqNo = c.maxSeqNo ∧
    (clientRedo c (acks.map PersistResp.addCmdOk ++
        PersistResp.redoErr e :: rest)).1.lastSeqNo = c.lastSeqNo + 1 ∧
    (clientRedo c (acks.map PersistResp.addCmdOk ++
        PersistResp.redoErr e :: rest)).2 = Except.error e := by
  obtain ⟨h1, h2, h3⟩ := foldl_ack_fields acks c
  simp only [clientUndo, clientRedo, waitUndoResp_append_acks,
    waitRedoResp_append_acks, waitUndoResp, waitRedoResp]
  and_intros
  all_goals simp_all

/-! ## Claim C8 — the saved-state predicate -/

/-- C8, counterexample to the claim as stated: on a freshly opened store
(client initialized by `PersisterClient::open` with
`last_processed_seq_no = None` and no pending responses), `saved()` returns
`false`, not `true` as the claim asserts. -/
theorem C8_counterexample :
    sqliteStoreSaved (C := SumCmd) (clientAfterOpen 0 none 100) [] =
      Except.ok false ∧
    ClientState.saved (clientAfterOpen 0 none 100) ≠ true := by
  exact ⟨rfl, by decide⟩

/-- C8 (amended): `saved()` returns true iff the server has acknowledged at
least one command and the last acknowledged sequence number equals the last
submitted one (`last_processed_seq_no = Some(last_seq_no)`); on a freshly
opened store it returns `false` until the first acknowledgement, both at the
client and through the facade's `SqliteUndoStore::saved`. -/
theorem C8_savedPredicate :
    (∀ c : ClientState,
        ClientState.saved c = true ↔ c.lastProcessedSeqNo = some c.lastSeqNo) ∧
    (∀ (seqNo : Int) (mm : Option (Int × Int)) (L : Nat),
        ClientState.saved (clientAfterOpen seqNo mm L) = false) ∧
    (∀ (C : Type) (seqNo : Int) (mm : Option (Int × Int)) (L : Nat),
        sqliteStoreSaved (C := C) (clientAfterOpen seqNo mm L) [] =
          Except.ok false) := by
  refine ⟨?_, ?_, ?_⟩
  · intro c
    cases h : c.lastProcessedSeqNo with
    | none => simp [ClientState.saved, h]
    | some p => simp [ClientState.saved, h, beq_iff_eq]
  · intro seqNo mm L; rfl
  · intro C seqNo mm L; rfl

/-- Witness for C10: the zero-capacity panic and the safe add at capacity 3,
both on the integer-sum model. -/
theorem C10_zeroCapacity_witness :
    InMemoryUndoStore.addCmd sumRedo (InMemoryUndoStore.new SumCmd (0 : Int) 0)
      (SumCmd.add 1) = none ∧
    ∃ s2, InMemoryUndoStore.addCmd sumRedo (InMemoryUndoStore.new SumCmd (0 : Int) 3)
        (SumCmd.add 1) = some s2 ∧
      s2.store.length ≤ (InMemoryUndoStore.new SumCmd (0 : Int) 3).capacity ∧
      s2.capacity = (InMemoryUndoStore.new SumCmd (0 : Int) 3).capacity :=
  ⟨C10_zeroCapacity.1 SumCmd Int sumRedo 0 (SumCmd.add 1),
   C10_zeroCapacity.2.2 SumCmd Int sumRedo _ (SumCmd.add 1) (by decide) (by decide)⟩

end Serdo
